import Mathlib

/-!
Shallow embedding of the cursor-rules-manager synchronization engine
(`src/rulesManager.ts`, `src/gitignoreManager.ts`).

Strings are modelled as `List Char` (`Str`), with the JavaScript string
operations the code uses (`includes`, `indexOf`/`substring`, `split`,
`trim`, `startsWith`, `endsWith`, the frontmatter regex) implemented
structurally so that every definition evaluates on concrete inputs.
Filesystem trees are finite labelled trees; file contents are `Str`s; the
SHA-256 content digest is modelled by an injective digest function
(`sha256`); relative paths are joined with `/` exactly as `path.join`
joins them.
-/

namespace CursorRules

/-- Characters of a modelled string. -/
abbrev Str := List Char

/-- Boolean prefix test on character lists (JS `startsWith`). -/
def prefixOfC : Str → Str → Bool
  | [], _ => true
  | _ :: _, [] => false
  | a :: as, b :: bs => a == b && prefixOfC as bs

/-- Helper scanning for an occurrence of `pat` at each suffix. -/
def containsSubstrAux (pat : Str) : Str → Bool
  | [] => prefixOfC pat []
  | c :: rest => prefixOfC pat (c :: rest) || containsSubstrAux pat rest

/-- Models JS `s.includes(pat)`. -/
def containsSubstr (s pat : Str) : Bool :=
  containsSubstrAux pat s

/-- Helper returning the remainder after the first occurrence of `pat`. -/
def afterFirstAux (pat : Str) : Str → Option Str
  | [] => if prefixOfC pat [] then some (List.drop pat.length []) else none
  | c :: rest =>
    if prefixOfC pat (c :: rest) then some (List.drop pat.length (c :: rest))
    else afterFirstAux pat rest

/-- Models `s.substring(s.indexOf(pat) + pat.length)`: the remainder of
`s` after the first occurrence of `pat`, or `none` if `pat` is absent. -/
def afterFirst (s pat : Str) : Option Str :=
  afterFirstAux pat s

/-- Models JS `s.split(sep)` for a one-character separator. -/
def splitOnChar (sep : Char) : Str → List Str
  | [] => [[]]
  | c :: rest =>
    if c = sep then [] :: splitOnChar sep rest
    else
      match splitOnChar sep rest with
      | [] => [[c]]
      | seg :: segs => (c :: seg) :: segs

/-- Models JS `s.trim()`: strip whitespace from both ends. -/
def trimC (s : Str) : Str :=
  ((s.dropWhile Char.isWhitespace).reverse.dropWhile Char.isWhitespace).reverse

/-- Models JS `s.endsWith(suffix)`. -/
def endsWithC (s suffix : Str) : Bool :=
  prefixOfC suffix.reverse s.reverse

/-- Models `path.join` on relative path segments (separator `/`). -/
def joinPath (a b : Str) : Str :=
  if a = [] then b else if b = [] then a else a ++ "/".data ++ b

mutual
/-- A filesystem entry: a file with its content, or a directory. -/
inductive Entry where
  | file (content : Str)
  | dir (children : Tree)
/-- The listing of a directory: its named children in `fs.Dirent` order. -/
inductive Tree where
  | nil
  | cons (name : Str) (entry : Entry) (rest : Tree)
end

/-- The named children of a tree as an association list. -/
def Tree.toList : Tree → List (Str × Entry)
  | Tree.nil => []
  | Tree.cons n e rest => (n, e) :: Tree.toList rest

/-- SHA-256 modelled as an injective digest with a distinguishing prefix,
so digests are equal iff contents are equal and never collide with the
empty missing-file sentinel. -/
def sha256 (content : Str) : Str := "sha256:".data ++ content

/-- Models `getFileHash`: empty sentinel for a missing file, digest of the
content otherwise. -/
def getFileHash (content? : Option Str) : Str :=
  match content? with
  | none => []
  | some c => sha256 c

/-- Models `GitignoreManager.shouldExclude(filePath, excludePatterns)`:
the path must contain `.cursor/rules`; the component right after it
decides — a root file is matched by its name before the first dot, a
folder by its name. -/
def shouldExclude (filePath : Str) (excludePatterns : List Str) : Bool :=
  match afterFirst filePath ".cursor/rules".data with
  | none => false
  | some tail =>
    let relativePath := List.drop 1 tail
    let pathParts := splitOnChar '/' relativePath
    match pathParts with
    | [] => false
    | [rootFolder] =>
      if rootFolder.contains '.' then
        excludePatterns.contains ((splitOnChar '.' rootFolder).headD [])
      else
        excludePatterns.contains rootFolder
    | rootFolder :: _ :: _ => excludePatterns.contains rootFolder

/-- Models `GitignoreManager.shouldExcludeFromRulesRepo`, which delegates
to `shouldExclude`. -/
def shouldExcludeFromRulesRepo (filePath : Str) (excludePatterns : List Str) : Bool :=
  shouldExclude filePath excludePatterns

/-- A fingerprint map: relative path to content digest, in walk order. -/
abbrev FMap := List (Str × Str)

/-- First binding of key `k` (JS object read `m[k]`). -/
def lookupKey (m : FMap) (k : Str) : Option Str :=
  (m.find? (fun p => decide (p.1 = k))).map (·.2)

/-- The recursive walk of `getAllFilesWithHash` (identical in `syncRules`
and `pushRules`): `wsRel` is the walked base directory's path relative to
the workspace root (the prefix of `relativeToWorkspace`); a directory
whose name is an exclude pattern is skipped whole; a file is recorded
unless `shouldExcludeFromRulesRepo` flags its workspace-relative path. -/
def walkFiles (excludePatterns : List Str) (wsRel : Str) : Str → Tree → FMap
  | _, Tree.nil => []
  | rel, Tree.cons name (Entry.file c) rest =>
    let relPath := joinPath rel name
    (if shouldExcludeFromRulesRepo (joinPath wsRel relPath) excludePatterns then
      []
    else
      [(relPath, getFileHash (some c))]) ++ walkFiles excludePatterns wsRel rel rest
  | rel, Tree.cons name (Entry.dir children) rest =>
    let relPath := joinPath rel name
    (if excludePatterns.contains name then
      []
    else
      walkFiles excludePatterns wsRel relPath children) ++ walkFiles excludePatterns wsRel rel rest

/-- Models `getAllFilesWithHash(basePath)` for a base directory whose
workspace-relative path is `wsRel`. -/
def getAllFilesWithHash (excludePatterns : List Str) (wsRel : Str) (t : Tree) : FMap :=
  walkFiles excludePatterns wsRel [] t

/-- The change set computed by the comparison loops of `syncRules` /
`pushRules` (lines 410-428 / 691-709). -/
structure ChangeSet where
  added : Nat
  modified : Nat
  deleted : Nat
  toCopy : List Str
  toDelete : List Str
deriving DecidableEq, Repr

/-- Sum `added + modified + deleted`, the `total` reported in `SyncStats`. -/
def ChangeSet.total (cs : ChangeSet) : Nat :=
  cs.added + cs.modified + cs.deleted

/-- Is `p` a new local file (key absent from the repo map)? -/
def isAddedIn (repoFiles : FMap) (p : Str × Str) : Bool :=
  (lookupKey repoFiles p.1).isNone

/-- Is `p` a changed local file (key present in both maps, digests differ)? -/
def isModifiedIn (repoFiles : FMap) (p : Str × Str) : Bool :=
  match lookupKey repoFiles p.1 with
  | none => false
  | some h => decide (h ≠ p.2)

/-- The two `for … in` comparison loops: local-only keys are `added`,
common keys with differing digests are `modified` (both enter `toCopy`),
repo-only keys are `deleted` and enter `toDelete`. -/
def computeChanges (localFiles repoFiles : FMap) : ChangeSet :=
  { added := (localFiles.filter (isAddedIn repoFiles)).length
    modified := (localFiles.filter (isModifiedIn repoFiles)).length
    deleted := (repoFiles.filter (isAddedIn localFiles)).length
    toCopy := ((localFiles.filter
      (fun p => isAddedIn repoFiles p || isModifiedIn repoFiles p)).map (·.1))
    toDelete := ((repoFiles.filter (isAddedIn localFiles)).map (·.1)) }

/-- Helper for the frontmatter regex: the part of `s` before the first
occurrence of `pat` and the part after it, if `pat` occurs. -/
def breakOnFirst (pat : Str) : Str → Option (Str × Str)
  | [] => if prefixOfC pat [] then some ([], List.drop pat.length []) else none
  | c :: rest =>
    if prefixOfC pat (c :: rest) then some ([], List.drop pat.length (c :: rest))
    else (breakOnFirst pat rest).map (fun q => (c :: q.1, q.2))

/-- The frontmatter match `content.match(/^(---[\s\S]*?---)([\s\S]*)/)`:
the content must start with `---`, and the lazily shortest following
stretch must be closed by another `---`; group 1 is the metadata block,
group 2 the rest of the file. -/
def parseFrontmatter (content : Str) : Option (Str × Str) :=
  if prefixOfC "---".data content then
    match breakOnFirst "---".data (List.drop 3 content) with
    | none => none
    | some (middle, rest) => some ("---".data ++ middle ++ "---".data, rest)
  else none

/-- Global-rule test of `copyFileForSync` on the destination path: no
exclude pattern occurs as `/pattern/` or `/pattern.` inside it. -/
def isGlobalRuleDst (excludePatterns : List Str) (dstPath : Str) : Bool :=
  !(excludePatterns.any (fun pattern =>
    containsSubstr dstPath ("/".data ++ pattern ++ "/".data) ||
    containsSubstr dstPath ("/".data ++ pattern ++ ".".data)))

/-- Markdown test of `copyFileForSync` on the source path. -/
def isMarkdownSrc (srcPath : Str) : Bool :=
  endsWithC srcPath ".md".data || endsWithC srcPath ".mdc".data

/-- The content `copyFileForSync` leaves at the destination, given the
source content and the destination's prior content (`none` if the
destination does not exist): for an existing global markdown destination
where both sides parse, the destination's metadata block is kept and the
source body appended; in every other case the source is copied verbatim. -/
def copyFileForSync (excludePatterns : List Str) (srcPath dstPath : Str)
    (srcContent : Str) (dstContent? : Option Str) : Str :=
  match dstContent? with
  | some dstContent =>
    if isGlobalRuleDst excludePatterns dstPath && isMarkdownSrc srcPath then
      match parseFrontmatter srcContent, parseFrontmatter dstContent with
      | some (_, srcBody), some (destFrontmatter, _) => destFrontmatter ++ srcBody
      | _, _ => srcContent
    else srcContent
  | none => srcContent

/-- The entry found at a component path inside a tree (`fs.statSync` view). -/
def statPath : Tree → List Str → Option Entry
  | Tree.nil, _ => none
  | Tree.cons _ _ _, [] => none
  | Tree.cons n e rest, [name] =>
    if n = name then some e else statPath rest [name]
  | Tree.cons n e rest, name :: p₁ :: ps =>
    if n = name then
      match e with
      | Entry.dir children => statPath children (p₁ :: ps)
      | Entry.file _ => none
    else statPath rest (name :: p₁ :: ps)

/-- Replace the first entry named `name`, or append a fresh one
(`fs.writeFileSync` / `fs.mkdirSync` on one directory level). -/
def upsert : Tree → Str → Entry → Tree
  | Tree.nil, name, e => Tree.cons name e Tree.nil
  | Tree.cons n e₀ rest, name, e =>
    if n = name then Tree.cons n e rest else Tree.cons n e₀ (upsert rest name e)

/-- Fresh nested directories ending in one file, as created by
`fs.mkdirSync(…, recursive)` followed by the file write. -/
def mkFileChain : List Str → Str → Tree
  | [], _ => Tree.nil
  | [name], c => Tree.cons name (Entry.file c) Tree.nil
  | name :: p₁ :: ps, c => Tree.cons name (Entry.dir (mkFileChain (p₁ :: ps) c)) Tree.nil

/-- Write file content at a component path, creating intermediate
directories; `none` models the `ENOTDIR`/`EISDIR` failure when a path
component collides with an existing entry of the wrong kind. -/
def setFile : Tree → List Str → Str → Option Tree
  | _, [], _ => none
  | t, [name], c =>
    match statPath t [name] with
    | some (Entry.dir _) => none
    | _ => some (upsert t name (Entry.file c))
  | t, name :: p₁ :: ps, c =>
    match statPath t [name] with
    | some (Entry.file _) => none
    | some (Entry.dir children) =>
      (setFile children (p₁ :: ps) c).map (fun ch => upsert t name (Entry.dir ch))
    | none => some (upsert t name (Entry.dir (mkFileChain (p₁ :: ps) c)))

/-- All file paths present in a tree, relative to `rel` (no exclusion:
this is the raw extensional content of the cloned remote rule tree). -/
def treeFiles (rel : Str) : Tree → List Str
  | Tree.nil => []
  | Tree.cons n (Entry.file _) rest => joinPath rel n :: treeFiles rel rest
  | Tree.cons n (Entry.dir children) rest =>
    treeFiles (joinPath rel n) children ++ treeFiles rel rest

/-- Path context of one `syncRules`/`pushRules` call: the configured
exclude patterns, the rule root relative to the workspace
(`config.globalRulesPath`), the absolute local and cloned-remote rule
roots, and the cloned-remote rule root relative to the workspace
(`path.relative(workspaceRoot, repoRulesPath)`). -/
structure SyncContext where
  excludePatterns : List Str
  rulesRel : Str
  localRootAbs : Str
  repoRootAbs : Str
  repoWsRel : Str

/-- The post-exclusion local fingerprint map of a call. -/
def localMap (ctx : SyncContext) (localTree : Tree) : FMap :=
  getAllFilesWithHash ctx.excludePatterns ctx.rulesRel localTree

/-- The post-exclusion cloned-remote fingerprint map of a call. -/
def repoMap (ctx : SyncContext) (repoTree : Tree) : FMap :=
  getAllFilesWithHash ctx.excludePatterns ctx.repoWsRel repoTree

/-- The copy loop (`for (const file of toCopy)`): each relative path is
read from the local tree and written into the cloned remote tree via
`copyFileForSync`; a filesystem failure aborts the loop, leaving the
writes already performed (the `Bool` records whether the loop completed). -/
def runCopyPhase (ctx : SyncContext) (localTree : Tree) : List Str → Tree → Tree × Bool
  | [], repo => (repo, true)
  | f :: rest, repo =>
    let comps := splitOnChar '/' f
    match statPath localTree comps with
    | some (Entry.file srcContent) =>
      match statPath repo comps with
      | some (Entry.dir _) => (repo, false)
      | some (Entry.file dstContent) =>
        let newContent := copyFileForSync ctx.excludePatterns
          (ctx.localRootAbs ++ "/".data ++ f) (ctx.repoRootAbs ++ "/".data ++ f)
          srcContent (some dstContent)
        match setFile repo comps newContent with
        | none => (repo, false)
        | some repo' => runCopyPhase ctx localTree rest repo'
      | none =>
        let newContent := copyFileForSync ctx.excludePatterns
          (ctx.localRootAbs ++ "/".data ++ f) (ctx.repoRootAbs ++ "/".data ++ f)
          srcContent none
        match setFile repo comps newContent with
        | none => (repo, false)
        | some repo' => runCopyPhase ctx localTree rest repo'
    | _ => (repo, false)

/-- The shared diff-and-copy block of `syncRules` (lines 376-437) and
`pushRules` (lines 657-718): build both fingerprint maps, compare them,
copy the new and changed files into the cloned remote tree. Returns the
change set, the remote tree after the copy loop, and whether the loop
completed. -/
def syncComputePhase (ctx : SyncContext) (localTree repoTree : Tree) :
    ChangeSet × Tree × Bool :=
  let localFiles := localMap ctx localTree
  let repoFiles := repoMap ctx repoTree
  let cs := computeChanges localFiles repoFiles
  let r := runCopyPhase ctx localTree cs.toCopy repoTree
  (cs, r.1, r.2)

/-- Retry configuration (delays in milliseconds). -/
structure RetryConfig where
  maxAttempts : Nat
  baseDelay : Nat
  maxDelay : Nat
  backoffMultiplier : Nat
deriving DecidableEq, Repr

/-- The transient-error classifier of `withRetry`: the stringified error
must contain one of thirteen fixed substrings. -/
def isRetryableError (errorMessage : Str) : Bool :=
  containsSubstr errorMessage "fetch first".data ||
  containsSubstr errorMessage "rejected".data ||
  containsSubstr errorMessage "timeout".data ||
  containsSubstr errorMessage "network".data ||
  containsSubstr errorMessage "connection".data ||
  containsSubstr errorMessage "unable to access".data ||
  containsSubstr errorMessage "Could not resolve host".data ||
  containsSubstr errorMessage "Connection timed out".data ||
  containsSubstr errorMessage "SSL certificate".data ||
  containsSubstr errorMessage "authentication".data ||
  containsSubstr errorMessage "permission denied".data ||
  containsSubstr errorMessage "remote: Repository not found".data ||
  containsSubstr errorMessage "remote: Invalid username or password".data

/-- The exponential backoff delay before the retry that follows a failed
`attempt` (1-based): `min(baseDelay * backoffMultiplier^(attempt-1), maxDelay)`. -/
def backoffDelay (config : RetryConfig) (attempt : Nat) : Nat :=
  min (config.baseDelay * config.backoffMultiplier ^ (attempt - 1)) config.maxDelay

/-- Observable trace of one `withRetry` run: how many times the operation
was invoked, the delays slept between attempts, and the final outcome. -/
structure RetryTrace (α : Type) where
  attempts : Nat
  delays : List Nat
  result : Except Str α
deriving Repr

/-- The `for (attempt = 1; attempt <= maxAttempts; attempt++)` loop of
`withRetry`: `fuel` counts the iterations the guard still allows
(`maxAttempts - attempt + 1`); the operation is a function of the attempt
number; a non-retryable error or an error on the last attempt is rethrown
at once; otherwise the loop sleeps the backoff delay and retries. -/
def withRetryGo {α : Type} (operation : Nat → Except Str α) (config : RetryConfig) :
    Nat → Nat → RetryTrace α
  | 0, _ => { attempts := 0, delays := [], result := Except.error [] }
  | fuel + 1, attempt =>
    match operation attempt with
    | Except.ok a => { attempts := 1, delays := [], result := Except.ok a }
    | Except.error e =>
      if !(isRetryableError e) || attempt = config.maxAttempts then
        { attempts := 1, delays := [], result := Except.error e }
      else
        let t := withRetryGo operation config fuel (attempt + 1)
        { attempts := t.attempts + 1
          delays := backoffDelay config attempt :: t.delays
          result := t.result }

/-- Models `withRetry(operation, config, …)`: the loop entered at
attempt 1 with `maxAttempts` iterations allowed. -/
def withRetry {α : Type} (operation : Nat → Except Str α) (config : RetryConfig) :
    RetryTrace α :=
  withRetryGo operation config config.maxAttempts 1

/-- Extension configuration (`Config`). -/
structure Config where
  rulesRepoUrl : Str
  globalRulesPath : Str
  excludePatterns : List Str
deriving DecidableEq, Repr

/-- Structured result of `validateConfig`. -/
structure ValidationResult where
  isValid : Bool
  error : Option Str
deriving DecidableEq, Repr

/-- Models `validateConfig`: empty or whitespace-only repo URL or rules
path, or an empty exclude-pattern list, each yield a distinct error. -/
def validateConfig (config : Config) : ValidationResult :=
  if config.rulesRepoUrl = [] ∨ trimC config.rulesRepoUrl = [] then
    { isValid := false
      error := some "URL репозитория с правилами не указан. Пожалуйста, укажите Rules Repo Url в настройках расширения и перезапустите IDE.".data }
  else if config.globalRulesPath = [] ∨ trimC config.globalRulesPath = [] then
    { isValid := false, error := some "Путь к глобальным правилам не указан.".data }
  else if config.excludePatterns = [] then
    { isValid := false, error := some "Список исключаемых папок не указан.".data }
  else
    { isValid := true, error := none }

/-- Models `configValidation.error || 'Неверная конфигурация'`. -/
def orElseNonEmpty (s? : Option Str) (default : Str) : Str :=
  match s? with
  | some s => if s = [] then default else s
  | none => default

/-- Where an operation's prologue ends: either it threw before reaching
`git.clone`, or control reached the clone step. -/
inductive PrologueResult where
  | failed (msg : Str)
  | cloneAttempted
deriving DecidableEq, Repr

/-- The prologue of `syncRules` (lines 338-364): validate, then proceed to
the gitignore update and the clone; a validation failure is thrown and
rewrapped by the surrounding catch as `Ошибка синхронизации: Error: …`. -/
def syncRulesPrologue (config : Config) : PrologueResult :=
  let v := validateConfig config
  if v.isValid then PrologueResult.cloneAttempted
  else PrologueResult.failed
    ("Ошибка синхронизации: Error: ".data ++ orElseNonEmpty v.error "Неверная конфигурация".data)

/-- The prologue of `pullRules` (lines 537-561), wrapped as
`Ошибка загрузки правил: Error: …`. -/
def pullRulesPrologue (config : Config) : PrologueResult :=
  let v := validateConfig config
  if v.isValid then PrologueResult.cloneAttempted
  else PrologueResult.failed
    ("Ошибка загрузки правил: Error: ".data ++ orElseNonEmpty v.error "Неверная конфигурация".data)

/-- The prologue of `pushRules` (lines 622-647), wrapped as
`Ошибка отправки правил: Error: …`. -/
def pushRulesPrologue (config : Config) : PrologueResult :=
  let v := validateConfig config
  if v.isValid then PrologueResult.cloneAttempted
  else PrologueResult.failed
    ("Ошибка отправки правил: Error: ".data ++ orElseNonEmpty v.error "Неверная конфигурация".data)

/-- The diverged-history conflict message of `syncRules` (lines 490-496). -/
def syncConflictMessage : Str :=
  "Конфликт при синхронизации: в удалённом репозитории есть изменения, которых нет локально. \n                        \nДля решения:\n1. Выполните команду \"Загрузить правила из GitHub\" для получения последних изменений\n2. Затем повторите синхронизацию\n\nИли выполните команду \"Синхронизировать правила Cursor\" для автоматического разрешения конфликтов.".data

/-- The generic push-error message of `syncRules` (lines 498-505). -/
def syncPushErrorMessage (errorMessage : Str) : Str :=
  "Ошибка отправки в GitHub: ".data ++ errorMessage ++
  ". \n                        \nВозможные причины:\n- Нет прав на запись в репозиторий\n- Проблемы с сетевым подключением\n- Репозиторий недоступен\n\nПроверьте настройки доступа к репозиторию и повторите попытку.".data

/-- The pull-then-push tail of `syncRules` (lines 471-507): the pull is
attempted inside its own `try`/`catch` whose handler only logs, so its
outcome never influences the flow; a push failure is classified by the
`fetch first` / `rejected` substrings into the conflict message or the
generic message and rethrown. -/
def syncPushPhase (pullResult pushResult : Except Str Unit) : Except Str Unit :=
  let _ := pullResult
  match pushResult with
  | Except.ok _ => Except.ok ()
  | Except.error msg =>
    if containsSubstr msg "fetch first".data || containsSubstr msg "rejected".data then
      Except.error syncConflictMessage
    else
      Except.error (syncPushErrorMessage msg)

/-- A `Rule` value produced by `getRulesStructure`. -/
structure Rule where
  name : Str
  path : Str
  files : List Str
  isDirectory : Bool
deriving DecidableEq, Repr

/-- The `RulesStructure` pair of rule lists. -/
structure RulesStructure where
  localRules : List Rule
  globalRules : List Rule
deriving DecidableEq, Repr

/-- Models `getFilesInDirectory`: all file paths under a directory, depth
first, prefixed by the directory's path. -/
def getFilesInDirectory (dirPath : Str) : Tree → List Str
  | Tree.nil => []
  | Tree.cons n (Entry.file _) rest =>
    (dirPath ++ "/".data ++ n) :: getFilesInDirectory dirPath rest
  | Tree.cons n (Entry.dir children) rest =>
    getFilesInDirectory (dirPath ++ "/".data ++ n) children ++ getFilesInDirectory dirPath rest

/-- The `Rule` record `getRulesStructure` builds for one child of the rule
root. -/
def ruleOfEntry (rulesRoot : Str) (p : Str × Entry) : Rule :=
  match p.2 with
  | Entry.dir children =>
    { name := p.1, path := rulesRoot ++ "/".data ++ p.1
      files := getFilesInDirectory (rulesRoot ++ "/".data ++ p.1) children
      isDirectory := true }
  | Entry.file _ =>
    { name := p.1, path := rulesRoot ++ "/".data ++ p.1
      files := [rulesRoot ++ "/".data ++ p.1], isDirectory := false }

/-- The scanning loop of `getRulesStructure`, child by child. -/
def getRulesStructureGo (excludePatterns : List Str) (rulesRoot : Str) : Tree → RulesStructure
  | Tree.nil => { localRules := [], globalRules := [] }
  | Tree.cons name e rest =>
    let r := getRulesStructureGo excludePatterns rulesRoot rest
    let rule := ruleOfEntry rulesRoot (name, e)
    if excludePatterns.contains name then
      { localRules := rule :: r.localRules, globalRules := r.globalRules }
    else
      { localRules := r.localRules, globalRules := rule :: r.globalRules }

/-- Models `getRulesStructure` (lines 183-226) on the listing of the rule
root (`none` when the rule directory does not exist): each immediate child
becomes a `Rule` and is placed into `localRules` when
`excludePatterns.includes(item.name)` — the raw entry name, extension
included for files — and into `globalRules` otherwise. -/
def getRulesStructure (excludePatterns : List Str) (rulesRoot : Str) :
    Option Tree → RulesStructure
  | none => { localRules := [], globalRules := [] }
  | some items => getRulesStructureGo excludePatterns rulesRoot items

/-- The `SyncStats` summary returned to callers. -/
structure SyncStats where
  added : Nat
  modified : Nat
  deleted : Nat
  total : Nat
deriving DecidableEq, Repr

/-- Models `copyDirectory`: merge the source directory into the
destination, recursing into directories and fully overwriting files. -/
def copyDirectoryMerge : Tree → Tree → Tree
  | dest, Tree.nil => dest
  | dest, Tree.cons n (Entry.file c) rest =>
    copyDirectoryMerge (upsert dest n (Entry.file c)) rest
  | dest, Tree.cons n (Entry.dir children) rest =>
    let sub :=
      match statPath dest [n] with
      | some (Entry.dir ch) => ch
      | _ => Tree.nil
    copyDirectoryMerge (upsert dest n (Entry.dir (copyDirectoryMerge sub children))) rest

/-- The copy-and-count loop of `pullRules` (lines 565-608): when the
cloned remote rule directory exists, each immediate child whose name is
not an exclude pattern is copied into the local rule tree — a whole
directory via `copyDirectory`, a root file via `copyFile` — and `added` is
incremented once per child; `modified` and `deleted` stay 0. Returns the
stats and the updated local tree. -/
def pullRules (excludePatterns : List Str) (repoTree? : Option Tree) (localTree : Tree) :
    SyncStats × Tree :=
  match repoTree? with
  | none => ({ added := 0, modified := 0, deleted := 0, total := 0 }, localTree)
  | some repoTree =>
    let kept := repoTree.toList.filter (fun p => !(excludePatterns.contains p.1))
    let newLocal := kept.foldl
      (fun loc p =>
        match p.2 with
        | Entry.dir children =>
          let sub :=
            match statPath loc [p.1] with
            | some (Entry.dir ch) => ch
            | _ => Tree.nil
          upsert loc p.1 (Entry.dir (copyDirectoryMerge sub children))
        | Entry.file c => upsert loc p.1 (Entry.file c))
      localTree
    ({ added := kept.length, modified := 0, deleted := 0, total := kept.length + 0 + 0 },
      newLocal)

/-- File paths contributed by one named entry rooted at `p`. -/
def entryFiles (p : Str) : Entry → List Str
  | Entry.file _ => [p]
  | Entry.dir children => treeFiles p children

/-- Concrete call context used by the witnesses: the default
`.cursor/rules` rule root, exclude pattern `my-project`, and a
timestamped temporary clone directory. -/
def sampleCtx : SyncContext :=
  { excludePatterns := ["my-project".data]
    rulesRel := ".cursor/rules".data
    localRootAbs := "/ws/.cursor/rules".data
    repoRootAbs := "/tmp/clone-1/.cursor/rules".data
    repoWsRel := "../tmp/clone-1/.cursor/rules".data }

/-- Concrete remote rule tree with one file `core/a.md`. -/
def sampleRepoTree : Tree :=
  Tree.cons "core".data
    (Entry.dir (Tree.cons "a.md".data (Entry.file "hello".data) Tree.nil)) Tree.nil

/-- Concrete local rule tree with one markdown file `core/a.md`. -/
def c3LocalTree : Tree :=
  Tree.cons "core".data
    (Entry.dir (Tree.cons "a.md".data (Entry.file "---\nF\n---\nNEW".data) Tree.nil)) Tree.nil

/-- Remote counterpart of `c3LocalTree` with the same frontmatter and an
older body: the merge rewrites it byte-identical to the local file. -/
def c3RepoConverging : Tree :=
  Tree.cons "core".data
    (Entry.dir (Tree.cons "a.md".data (Entry.file "---\nF\n---\nOLD".data) Tree.nil)) Tree.nil

/-- Remote counterpart of `c3LocalTree` with different frontmatter: the
merge keeps the remote metadata block, so the file stays different from
the local file forever. -/
def c3RepoDiverging : Tree :=
  Tree.cons "core".data
    (Entry.dir (Tree.cons "a.md".data (Entry.file "---\nX\n---\nOLD".data) Tree.nil)) Tree.nil

/-- Concrete rule root listing with one excluded and one global folder. -/
def demoRulesTree : Tree :=
  Tree.cons "my-project".data (Entry.dir Tree.nil)
    (Tree.cons "core".data (Entry.dir Tree.nil) Tree.nil)

/-- Concrete configuration with a whitespace-only repository URL. -/
def badConfig : Config :=
  { rulesRepoUrl := "   ".data
    globalRulesPath := ".cursor/rules".data
    excludePatterns := ["my-project".data] }

/-- Retry configuration of the spec's backoff example. -/
def retryCfgSample : RetryConfig :=
  { maxAttempts := 3, baseDelay := 1000, maxDelay := 10000, backoffMultiplier := 2 }

/-- An operation that always raises a transient error. -/
def alwaysTimeout : Nat → Except Str Unit :=
  fun _ => Except.error "Connection timed out: could not push".data

/-! Helper lemmas about tree writes: a `setFile` that succeeds never makes
an existing file path disappear. -/

/-- Spine induction for `Tree`: the motive never descends into entries. -/
theorem Tree.spineInduction {motive : Tree → Prop} (hnil : motive Tree.nil)
    (hcons : ∀ n e rest, motive rest → motive (Tree.cons n e rest)) : ∀ t, motive t
  | Tree.nil => hnil
  | Tree.cons n e rest => hcons n e rest (Tree.spineInduction hnil hcons rest)

theorem treeFiles_cons (rel n : Str) (e : Entry) (rest : Tree) :
    treeFiles rel (Tree.cons n e rest) = entryFiles (joinPath rel n) e ++ treeFiles rel rest := by
  cases e <;> simp [treeFiles, entryFiles]

theorem lookupKey_nil (k : Str) : lookupKey [] k = none := rfl

theorem treeFiles_upsert_subset (rel name : Str) (e : Entry) (t : Tree)
    (h : ∀ e₀, statPath t [name] = some e₀ →
      ∀ q ∈ entryFiles (joinPath rel name) e₀, q ∈ entryFiles (joinPath rel name) e) :
    ∀ q ∈ treeFiles rel t, q ∈ treeFiles rel (upsert t name e) := by
  induction t using Tree.spineInduction with
  | hnil => intro q hq; simp [treeFiles] at hq
  | hcons n e₀ rest ih =>
    intro q hq
    rw [treeFiles_cons] at hq
    by_cases hn : n = name
    · subst hn
      have hstat : statPath (Tree.cons n e₀ rest) [n] = some e₀ := by simp [statPath]
      have hup : upsert (Tree.cons n e₀ rest) n e = Tree.cons n e rest := by simp [upsert]
      rw [hup, treeFiles_cons]
      rcases List.mem_append.mp hq with h1 | h2
      · exact List.mem_append.mpr (Or.inl (h e₀ hstat q h1))
      · exact List.mem_append.mpr (Or.inr h2)
    · have hup : upsert (Tree.cons n e₀ rest) name e = Tree.cons n e₀ (upsert rest name e) := by
        simp [upsert, hn]
      rw [hup, treeFiles_cons]
      rcases List.mem_append.mp hq with h1 | h2
      · exact List.mem_append.mpr (Or.inl h1)
      · refine List.mem_append.mpr (Or.inr (ih ?_ q h2))
        intro e₁ hstat₁
        apply h
        simpa [statPath, hn] using hstat₁

theorem setFile_preserves (c : Str) :
    ∀ (path : List Str) (t t' : Tree) (rel : Str),
      setFile t path c = some t' → ∀ q ∈ treeFiles rel t, q ∈ treeFiles rel t' := by
  intro path
  induction path with
  | nil => intro t t' rel hset; simp [setFile] at hset
  | cons name rest ih =>
    intro t t' rel hset q hq
    cases rest with
    | nil =>
      rcases hstat : statPath t [name] with _ | e₀
      · have ht' : t' = upsert t name (Entry.file c) := by
          simp [setFile, hstat] at hset
          exact hset.symm
        subst ht'
        refine treeFiles_upsert_subset rel name (Entry.file c) t ?_ q hq
        intro e₁ hstat₁
        rw [hstat] at hstat₁; cases hstat₁
      · cases e₀ with
        | file s =>
          have ht' : t' = upsert t name (Entry.file c) := by
            simp [setFile, hstat] at hset
            exact hset.symm
          subst ht'
          refine treeFiles_upsert_subset rel name (Entry.file c) t ?_ q hq
          intro e₁ hstat₁
          rw [hstat] at hstat₁
          cases hstat₁
          intro q' hq'
          simpa [entryFiles] using hq'
        | dir ch => simp [setFile, hstat] at hset
    | cons p₁ ps =>
      rcases hstat : statPath t [name] with _ | e₀
      · have ht' : t' = upsert t name (Entry.dir (mkFileChain (p₁ :: ps) c)) := by
          simp [setFile, hstat] at hset
          exact hset.symm
        subst ht'
        refine treeFiles_upsert_subset rel name (Entry.dir (mkFileChain (p₁ :: ps) c)) t ?_ q hq
        intro e₁ hstat₁
        rw [hstat] at hstat₁; cases hstat₁
      · cases e₀ with
        | file s => simp [setFile, hstat] at hset
        | dir ch =>
          rcases hmap : setFile ch (p₁ :: ps) c with _ | ch'
          · simp [setFile, hstat, hmap] at hset
          · have ht' : t' = upsert t name (Entry.dir ch') := by
              simp [setFile, hstat, hmap] at hset
              exact hset.symm
            subst ht'
            refine treeFiles_upsert_subset rel name (Entry.dir ch') t ?_ q hq
            intro e₁ hstat₁
            rw [hstat] at hstat₁
            cases hstat₁
            intro q' hq'
            simpa [entryFiles] using ih ch ch' (joinPath rel name) hmap q'
              (by simpa [entryFiles] using hq')

theorem runCopyPhase_preserves (ctx : SyncContext) (localTree : Tree) :
    ∀ (files : List Str) (repo : Tree) (q : Str),
      q ∈ treeFiles [] repo → q ∈ treeFiles [] (runCopyPhase ctx localTree files repo).1 := by
  intro files
  induction files with
  | nil => intro repo q hq; simpa [runCopyPhase] using hq
  | cons f rest ih =>
    intro repo q hq
    rcases hsrc : statPath localTree (splitOnChar '/' f) with _ | e₀
    · simp only [runCopyPhase, hsrc]; exact hq
    · cases e₀ with
      | dir ch => simp only [runCopyPhase, hsrc]; exact hq
      | file srcContent =>
        rcases hdst : statPath repo (splitOnChar '/' f) with _ | d₀
        · rcases hset : setFile repo (splitOnChar '/' f)
            (copyFileForSync ctx.excludePatterns (ctx.localRootAbs ++ "/".data ++ f)
              (ctx.repoRootAbs ++ "/".data ++ f) srcContent none) with _ | repo'
          · simp only [runCopyPhase, hsrc, hdst, hset]; exact hq
          · have hmem : q ∈ treeFiles [] repo' := setFile_preserves _ _ repo repo' [] hset q hq
            simp only [runCopyPhase, hsrc, hdst, hset]
            exact ih repo' q hmem
        · cases d₀ with
          | dir ch => simp only [runCopyPhase, hsrc, hdst]; exact hq
          | file dstContent =>
            rcases hset : setFile repo (splitOnChar '/' f)
              (copyFileForSync ctx.excludePatterns (ctx.localRootAbs ++ "/".data ++ f)
                (ctx.repoRootAbs ++ "/".data ++ f) srcContent (some dstContent)) with _ | repo'
            · simp only [runCopyPhase, hsrc, hdst, hset]; exact hq
            · have hmem : q ∈ treeFiles [] repo' := setFile_preserves _ _ repo repo' [] hset q hq
              simp only [runCopyPhase, hsrc, hdst, hset]
              exact ih repo' q hmem

/-- C1: with an empty post-exclusion local fingerprint map and a non-empty
remote one, `toDelete` is still computed — it lists every remote path and
`deleted` counts them — but nothing is copied and nothing is deleted: the
cloned remote rule tree after the diff-and-copy block is exactly the tree
before it, so its file set is unchanged. -/
theorem deletionProtection_emptyLocal (ctx : SyncContext) (localTree repoTree : Tree)
    (hloc : localMap ctx localTree = []) (hrem : repoMap ctx repoTree ≠ []) :
    (syncComputePhase ctx localTree repoTree).1.toDelete =
      (repoMap ctx repoTree).map Prod.fst ∧
    (syncComputePhase ctx localTree repoTree).1.deleted = (repoMap ctx repoTree).length ∧
    (syncComputePhase ctx localTree repoTree).2.1 = repoTree ∧
    treeFiles [] (syncComputePhase ctx localTree repoTree).2.1 = treeFiles [] repoTree := by
  have hfilter : (repoMap ctx repoTree).filter (isAddedIn (localMap ctx localTree))
      = repoMap ctx repoTree := by
    refine List.filter_eq_self.mpr ?_
    intro p _
    simp [isAddedIn, hloc, lookupKey_nil]
  have htoCopy : (computeChanges (localMap ctx localTree) (repoMap ctx repoTree)).toCopy = [] := by
    simp [computeChanges, hloc]
  refine ⟨?_, ?_, ?_, ?_⟩
  · simp [syncComputePhase, computeChanges, hfilter]
  · simp [syncComputePhase, computeChanges, hfilter]
  · simp [syncComputePhase, htoCopy, runCopyPhase]
  · simp [syncComputePhase, htoCopy, runCopyPhase]

/-- Witness for C1: a concrete call with no local files and one remote
file computes one deletion candidate yet leaves the remote tree intact. -/
theorem deletionProtection_emptyLocal_witness :
    localMap sampleCtx Tree.nil = [] ∧
      repoMap sampleCtx sampleRepoTree ≠ [] ∧
      (syncComputePhase sampleCtx Tree.nil sampleRepoTree).1.deleted = 1 ∧
      (syncComputePhase sampleCtx Tree.nil sampleRepoTree).2.1 = sampleRepoTree := by
  have h := deletionProtection_emptyLocal sampleCtx Tree.nil sampleRepoTree
    (by decide) (by decide)
  refine ⟨by decide, by decide, ?_, h.2.2.1⟩
  rw [h.2.1]; decide

/-- C2: the diff-and-copy block of `syncRules`/`pushRules` never removes a
file from the cloned remote rule tree — every file path present before the
copy loop is still present after it — while `toDelete` lists exactly the
remote-only paths and `deleted` counts them. -/
theorem syncNeverDeletes (ctx : SyncContext) (localTree repoTree : Tree) :
    (∀ q ∈ treeFiles [] repoTree,
      q ∈ treeFiles [] (syncComputePhase ctx localTree repoTree).2.1) ∧
    (syncComputePhase ctx localTree repoTree).1.toDelete =
      ((repoMap ctx repoTree).filter
        (fun p => (lookupKey (localMap ctx localTree) p.1).isNone)).map Prod.fst ∧
    (syncComputePhase ctx localTree repoTree).1.deleted =
      (syncComputePhase ctx localTree repoTree).1.toDelete.length := by
  refine ⟨?_, ?_, ?_⟩
  · intro q hq
    simpa [syncComputePhase] using
      runCopyPhase_preserves ctx localTree
        (computeChanges (localMap ctx localTree) (repoMap ctx repoTree)).toCopy repoTree q hq
  · rfl
  · simp [syncComputePhase, computeChanges]

/-- Witness for C2: on a concrete call that modifies the only remote file,
the remote file `core/a.md` is still present after the copy loop. -/
theorem syncNeverDeletes_witness :
    "core/a.md".data ∈ treeFiles [] (syncComputePhase sampleCtx c3LocalTree sampleRepoTree).2.1 :=
  (syncNeverDeletes sampleCtx c3LocalTree sampleRepoTree).1 "core/a.md".data (by decide)

theorem lookupKey_self (m : FMap) (hnd : (m.map Prod.fst).Nodup) :
    ∀ p ∈ m, lookupKey m p.1 = some p.2 := by
  induction m with
  | nil => intro p hp; cases hp
  | cons q rest ih =>
    intro p hp
    rcases List.mem_cons.mp hp with rfl | hp
    · simp [lookupKey]
    · have hne : ¬(q.1 = p.1) := by
        intro h
        have hmem : p.1 ∈ rest.map Prod.fst := List.mem_map_of_mem Prod.fst hp
        rw [← h] at hmem
        exact (List.nodup_cons.mp (by simpa using hnd)).1 hmem
      have hrec := ih (List.nodup_cons.mp (by simpa using hnd)).2 p hp
      simpa [lookupKey, List.find?, hne] using hrec

theorem computeChanges_self (m : FMap) (hnd : (m.map Prod.fst).Nodup) :
    (computeChanges m m).total = 0 := by
  have h1 : m.filter (isAddedIn m) = [] := by
    refine List.filter_eq_nil_iff.mpr ?_
    intro p hp
    simp [isAddedIn, lookupKey_self m hnd p hp]
  have h2 : m.filter (isModifiedIn m) = [] := by
    refine List.filter_eq_nil_iff.mpr ?_
    intro p hp
    simp [isModifiedIn, lookupKey_self m hnd p hp]
  simp [ChangeSet.total, computeChanges, h1, h2]

/-- C3 (amended): running the diff-and-copy block a second time on the
remote tree left by the first run yields a `ChangeSet` with `total = 0`
whenever the first run has brought the remote fingerprint map into
agreement with the (duplicate-free) local fingerprint map — in particular
whenever every copied file was written byte-for-byte and no remote-only
path existed. Without such a condition the second run can count changes
again: `syncRules_not_idempotent` exhibits a markdown file whose
frontmatter differs between the two sides and therefore is still counted
as `modified` on the second run. -/
theorem syncRules_secondRun_total_zero (ctx : SyncContext) (localTree repoTree : Tree)
    (hnd : ((localMap ctx localTree).map Prod.fst).Nodup)
    (hconv : repoMap ctx (syncComputePhase ctx localTree repoTree).2.1 = localMap ctx localTree) :
    ((syncComputePhase ctx localTree (syncComputePhase ctx localTree repoTree).2.1).1).total
      = 0 := by
  have hcs : (syncComputePhase ctx localTree (syncComputePhase ctx localTree repoTree).2.1).1
      = computeChanges (localMap ctx localTree)
          (repoMap ctx (syncComputePhase ctx localTree repoTree).2.1) := rfl
  rw [hcs, hconv]
  exact computeChanges_self _ hnd

/-- Witness for the amended C3: local and remote share the frontmatter,
so the first copy rewrites the remote file byte-identical to the local
one and the second run counts nothing. -/
theorem syncRules_secondRun_total_zero_witness :
    ((localMap sampleCtx c3LocalTree).map Prod.fst).Nodup ∧
      repoMap sampleCtx (syncComputePhase sampleCtx c3LocalTree c3RepoConverging).2.1
        = localMap sampleCtx c3LocalTree ∧
      ((syncComputePhase sampleCtx c3LocalTree
        (syncComputePhase sampleCtx c3LocalTree c3RepoConverging).2.1).1).total = 0 :=
  ⟨by decide, by decide,
    syncRules_secondRun_total_zero sampleCtx c3LocalTree c3RepoConverging
      (by decide) (by decide)⟩

/-- Counterexample to C3 as stated: with a single markdown rule whose
local frontmatter differs from the remote frontmatter, the first sync
merges bodies but keeps the remote metadata block, so a second run with
the identical local tree still counts the file as modified —
`total = 1`, not `0`. -/
theorem syncRules_not_idempotent :
    ((syncComputePhase sampleCtx c3LocalTree
        (syncComputePhase sampleCtx c3LocalTree c3RepoDiverging).2.1).1).total = 1 ∧
      ¬(((syncComputePhase sampleCtx c3LocalTree
        (syncComputePhase sampleCtx c3LocalTree c3RepoDiverging).2.1).1).total = 0) := by
  refine ⟨by decide, by decide⟩

/-- C4: for a global markdown source over an existing destination, when
both contents parse as metadata block + body, `copyFileForSync` writes
exactly the destination's metadata block concatenated with the source's
body (nothing trimmed or reflowed); when either side fails to parse, the
source is copied byte-for-byte instead. -/
theorem copyFileForSync_frontmatterMerge (excludePatterns : List Str)
    (srcPath dstPath srcContent dstContent fmS bodyS fmD bodyD : Str)
    (hg : isGlobalRuleDst excludePatterns dstPath = true)
    (hm : isMarkdownSrc srcPath = true)
    (hs : parseFrontmatter srcContent = some (fmS, bodyS))
    (hd : parseFrontmatter dstContent = some (fmD, bodyD)) :
    copyFileForSync excludePatterns srcPath dstPath srcContent (some dstContent)
      = fmD ++ bodyS ∧
    (∀ s d : Str, parseFrontmatter s = none →
      copyFileForSync excludePatterns srcPath dstPath s (some d) = s) ∧
    (∀ s d : Str, parseFrontmatter d = none →
      copyFileForSync excludePatterns srcPath dstPath s (some d) = s) := by
  refine ⟨?_, ?_, ?_⟩
  · simp [copyFileForSync, hg, hm, hs, hd]
  · intro s d hnone
    simp [copyFileForSync, hg, hm, hnone]
  · intro s d hnone
    rcases hps : parseFrontmatter s with _ | q
    · simp [copyFileForSync, hg, hm, hps, hnone]
    · simp [copyFileForSync, hg, hm, hps, hnone]

/-- Witness for C4: the spec's round-trip example — source
`---\nA:1\n---\nBODY_NEW` over destination `---\nB:2\n---\nBODY_OLD`
leaves `---\nB:2\n---\nBODY_NEW`: the destination metadata block followed
by the source body `BODY_NEW` with its separating newline intact. -/
theorem copyFileForSync_frontmatterMerge_witness :
    isGlobalRuleDst ["my-project".data] "/tmp/clone-1/.cursor/rules/core/a.md".data = true ∧
      isMarkdownSrc "/ws/.cursor/rules/core/a.md".data = true ∧
      parseFrontmatter "---\nA:1\n---\nBODY_NEW".data
        = some ("---\nA:1\n---".data, "\nBODY_NEW".data) ∧
      parseFrontmatter "---\nB:2\n---\nBODY_OLD".data
        = some ("---\nB:2\n---".data, "\nBODY_OLD".data) ∧
      copyFileForSync ["my-project".data] "/ws/.cursor/rules/core/a.md".data
        "/tmp/clone-1/.cursor/rules/core/a.md".data "---\nA:1\n---\nBODY_NEW".data
        (some "---\nB:2\n---\nBODY_OLD".data) = "---\nB:2\n---\nBODY_NEW".data ∧
      "---\nB:2\n---\nBODY_NEW".data
        = "---\nB:2\n---".data ++ "\n".data ++ "BODY_NEW".data := by
  refine ⟨by decide, by decide, by decide, by decide, ?_, by decide⟩
  have h := (copyFileForSync_frontmatterMerge ["my-project".data]
    "/ws/.cursor/rules/core/a.md".data "/tmp/clone-1/.cursor/rules/core/a.md".data
    "---\nA:1\n---\nBODY_NEW".data "---\nB:2\n---\nBODY_OLD".data
    "---\nA:1\n---".data "\nBODY_NEW".data "---\nB:2\n---".data "\nBODY_OLD".data
    (by decide) (by decide) (by decide) (by decide)).1
  rw [h]; decide

theorem withRetryGo_attempts_le {α : Type} (op : Nat → Except Str α) (cfg : RetryConfig) :
    ∀ (fuel a : Nat), (withRetryGo op cfg fuel a).attempts ≤ fuel := by
  intro fuel
  induction fuel with
  | zero => intro a; simp [withRetryGo]
  | succ n ih =>
    intro a
    rw [withRetryGo]
    cases hop : op a with
    | ok v => simp
    | error e =>
      by_cases hr : isRetryableError e
      · by_cases ha : a = cfg.maxAttempts
        · simp [hr, ha]
        · simp [hr, ha]
          have := ih (a + 1)
          omega
      · simp [hr]

theorem withRetryGo_attempts_pos {α : Type} (op : Nat → Except Str α) (cfg : RetryConfig)
    (fuel a : Nat) (hfuel : 1 ≤ fuel) : 1 ≤ (withRetryGo op cfg fuel a).attempts := by
  obtain ⟨k, rfl⟩ : ∃ k, fuel = k + 1 := ⟨fuel - 1, by omega⟩
  rw [withRetryGo]
  cases hop : op a with
  | ok v => simp
  | error e =>
    by_cases hr : isRetryableError e
    · by_cases ha : a = cfg.maxAttempts
      · simp [hr, ha]
      · simp [hr, ha]
    · simp [hr]

theorem withRetryGo_delays {α : Type} (op : Nat → Except Str α) (cfg : RetryConfig) :
    ∀ (fuel a : Nat), a + fuel = cfg.maxAttempts + 1 →
      (withRetryGo op cfg fuel a).delays
        = (List.range ((withRetryGo op cfg fuel a).attempts - 1)).map
            (fun i => backoffDelay cfg (a + i)) := by
  intro fuel
  induction fuel with
  | zero => intro a h; simp [withRetryGo]
  | succ n ih =>
    intro a h
    rw [withRetryGo]
    cases hop : op a with
    | ok v => simp
    | error e =>
      by_cases hr : isRetryableError e
      · by_cases ha : a = cfg.maxAttempts
        · simp [hr, ha]
        · have hfa : (a + 1) + n = cfg.maxAttempts + 1 := by omega
          have hall := ih (a + 1) hfa
          have hn : 1 ≤ n := by omega
          have hpos := withRetryGo_attempts_pos op cfg n (a + 1) hn
          obtain ⟨s, hs⟩ : ∃ s, (withRetryGo op cfg n (a + 1)).attempts = s + 1 :=
            ⟨(withRetryGo op cfg n (a + 1)).attempts - 1, by omega⟩
          simp only [hr, Bool.not_true, Bool.false_or, decide_eq_true_eq]
          rw [if_neg ha]
          rw [hall, hs]
          simp only [Nat.add_sub_cancel, List.range_succ_eq_map, List.map_cons, List.map_map]
          refine congrArg₂ List.cons ?_ ?_
          · exact congrArg (backoffDelay cfg) (by omega)
          · refine List.map_congr_left ?_
            intro i _
            simp only [Function.comp]
            exact congrArg (backoffDelay cfg) (by omega)
      · simp [hr]

/-- C5: `withRetry` invokes the operation at most `maxAttempts` times; a
non-retryable first error, or any error raised on the final attempt,
propagates immediately with no further invocation; the delays slept
between consecutive failed attempts follow
`min(baseDelay * backoffMultiplier^(attempt-1), maxDelay)` with the
attempt counter starting at 1. -/
theorem withRetry_spec {α : Type} (op : Nat → Except Str α) (cfg : RetryConfig)
    (hmax : 1 ≤ cfg.maxAttempts) :
    (withRetry op cfg).attempts ≤ cfg.maxAttempts ∧
    (∀ e, op 1 = Except.error e → isRetryableError e = false →
      withRetry op cfg = { attempts := 1, delays := [], result := Except.error e }) ∧
    (∀ e fuel, 1 ≤ fuel → op cfg.maxAttempts = Except.error e →
      withRetryGo op cfg fuel cfg.maxAttempts
        = { attempts := 1, delays := [], result := Except.error e }) ∧
    (withRetry op cfg).delays
      = (List.range ((withRetry op cfg).attempts - 1)).map
          (fun i => backoffDelay cfg (i + 1)) := by
  refine ⟨withRetryGo_attempts_le op cfg cfg.maxAttempts 1, ?_, ?_, ?_⟩
  · intro e hop hre
    obtain ⟨k, hk⟩ : ∃ k, cfg.maxAttempts = k + 1 := ⟨cfg.maxAttempts - 1, by omega⟩
    rw [withRetry, hk, withRetryGo, hop]
    simp [hre]
  · intro e fuel hfuel hop
    obtain ⟨k, rfl⟩ : ∃ k, fuel = k + 1 := ⟨fuel - 1, by omega⟩
    rw [withRetryGo, hop]
    simp
  · have h := withRetryGo_delays op cfg cfg.maxAttempts 1 (by omega)
    rw [withRetry, h]
    refine List.map_congr_left ?_
    intro i _
    refine congrArg (backoffDelay cfg) (by omega)

/-- Witness for C5: the spec's backoff example — with
`{maxAttempts := 3, baseDelay := 1000, backoffMultiplier := 2,
maxDelay := 10000}` and an operation that always raises a transient
error, exactly 3 attempts are made, the delays are 1000 ms then 2000 ms,
and the last error is propagated. -/
theorem withRetry_spec_witness :
    (1 ≤ retryCfgSample.maxAttempts ∧
      (withRetry alwaysTimeout retryCfgSample).attempts ≤ retryCfgSample.maxAttempts) ∧
      (withRetry alwaysTimeout retryCfgSample).attempts = 3 ∧
      (withRetry alwaysTimeout retryCfgSample).delays = [1000, 2000] ∧
      (withRetry alwaysTimeout retryCfgSample).result
        = Except.error "Connection timed out: could not push".data :=
  ⟨⟨by decide, (withRetry_spec alwaysTimeout retryCfgSample (by decide)).1⟩,
    by decide, by decide, rfl⟩

/-- C9: the transient-error classifier also matches `authentication`,
`permission denied`, `remote: Repository not found` and
`remote: Invalid username or password`, so an operation failing
permanently with such an error is still retried with backoff up to
`maxAttempts` times instead of propagating on the first attempt. -/
theorem retryClassifier_retries_permanent_errors :
    isRetryableError "authentication".data = true ∧
      isRetryableError "permission denied".data = true ∧
      isRetryableError "remote: Repository not found".data = true ∧
      isRetryableError "remote: Invalid username or password".data = true ∧
      (withRetry (fun _ => (Except.error "remote: Repository not found".data : Except Str Unit))
        retryCfgSample).attempts = 3 ∧
      (withRetry (fun _ => (Except.error "remote: Repository not found".data : Except Str Unit))
        retryCfgSample).delays = [1000, 2000] := by
  refine ⟨by decide, by decide, by decide, by decide, by decide, by decide⟩

theorem ruleOfEntry_name (rulesRoot : Str) (name : Str) (e : Entry) :
    (ruleOfEntry rulesRoot (name, e)).name = name := by
  cases e <;> rfl

/-- C6 (amended): `getRulesStructure` places each immediate child of the
rule root in exactly one of the two lists, and a child is in `localRules`
iff its raw entry name — for a root file the full filename, extension
included — is listed in `excludePatterns`; no entry appears in both
lists. -/
theorem getRulesStructure_partition (excludePatterns : List Str) (rulesRoot : Str)
    (items : Tree) :
    (getRulesStructure excludePatterns rulesRoot (some items)).localRules
      = (items.toList.map (ruleOfEntry rulesRoot)).filter
          (fun r => excludePatterns.contains r.name) ∧
    (getRulesStructure excludePatterns rulesRoot (some items)).globalRules
      = (items.toList.map (ruleOfEntry rulesRoot)).filter
          (fun r => !(excludePatterns.contains r.name)) ∧
    ∀ r, ¬(r ∈ (getRulesStructure excludePatterns rulesRoot (some items)).localRules ∧
      r ∈ (getRulesStructure excludePatterns rulesRoot (some items)).globalRules) := by
  have hgo : ∀ t : Tree,
      (getRulesStructureGo excludePatterns rulesRoot t).localRules
        = (t.toList.map (ruleOfEntry rulesRoot)).filter
            (fun r => excludePatterns.contains r.name) ∧
      (getRulesStructureGo excludePatterns rulesRoot t).globalRules
        = (t.toList.map (ruleOfEntry rulesRoot)).filter
            (fun r => !(excludePatterns.contains r.name)) := by
    intro t
    induction t using Tree.spineInduction with
    | hnil => exact ⟨rfl, rfl⟩
    | hcons name e rest ih =>
      by_cases hname : name ∈ excludePatterns
      · constructor
        · simp [getRulesStructureGo, Tree.toList, hname, ruleOfEntry_name, ih.1]
        · simp [getRulesStructureGo, Tree.toList, hname, ruleOfEntry_name, ih.2]
      · constructor
        · simp [getRulesStructureGo, Tree.toList, hname, ruleOfEntry_name, ih.1]
        · simp [getRulesStructureGo, Tree.toList, hname, ruleOfEntry_name, ih.2]
  refine ⟨(hgo items).1, (hgo items).2, ?_⟩
  intro r ⟨hl, hg⟩
  rw [show (getRulesStructure excludePatterns rulesRoot (some items)).localRules
    = (getRulesStructureGo excludePatterns rulesRoot items).localRules from rfl,
    (hgo items).1] at hl
  rw [show (getRulesStructure excludePatterns rulesRoot (some items)).globalRules
    = (getRulesStructureGo excludePatterns rulesRoot items).globalRules from rfl,
    (hgo items).2] at hg
  have h1 := (List.mem_filter.mp hl).2
  have h2 := (List.mem_filter.mp hg).2
  rw [h1] at h2
  cases h2

/-- Witness for the amended C6: on a concrete rule root with an excluded
folder and a global folder, the partition is as characterised and the
excluded folder's rule is not in both lists. -/
theorem getRulesStructure_partition_witness :
    (getRulesStructure ["my-project".data] "/ws/.cursor/rules".data
        (some demoRulesTree)).localRules
      = (demoRulesTree.toList.map (ruleOfEntry "/ws/.cursor/rules".data)).filter
          (fun r => ["my-project".data].contains r.name) ∧
      ¬(ruleOfEntry "/ws/.cursor/rules".data ("my-project".data, Entry.dir Tree.nil)
          ∈ (getRulesStructure ["my-project".data] "/ws/.cursor/rules".data
              (some demoRulesTree)).localRules ∧
        ruleOfEntry "/ws/.cursor/rules".data ("my-project".data, Entry.dir Tree.nil)
          ∈ (getRulesStructure ["my-project".data] "/ws/.cursor/rules".data
              (some demoRulesTree)).globalRules) :=
  ⟨(getRulesStructure_partition ["my-project".data] "/ws/.cursor/rules".data demoRulesTree).1,
    (getRulesStructure_partition ["my-project".data] "/ws/.cursor/rules".data demoRulesTree).2.2
      (ruleOfEntry "/ws/.cursor/rules".data ("my-project".data, Entry.dir Tree.nil))⟩

/-- Counterexample to C6 as stated: with exclude pattern `my-project`, a
file `my-project.md` at the rule root has the name `my-project` after
stripping the extension — exactly the matching `shouldExclude` performs —
yet `getRulesStructure` compares the full filename `my-project.md` and
classifies the entry global, not local. -/
theorem getRulesStructure_fullFilename :
    (splitOnChar '.' "my-project.md".data).headD [] = "my-project".data ∧
      ["my-project".data].contains ((splitOnChar '.' "my-project.md".data).headD []) = true ∧
      shouldExclude ".cursor/rules/my-project.md".data ["my-project".data] = true ∧
      (getRulesStructure ["my-project".data] "/ws/.cursor/rules".data
        (some (Tree.cons "my-project.md".data (Entry.file "x".data) Tree.nil))).localRules
        = [] ∧
      ((getRulesStructure ["my-project".data] "/ws/.cursor/rules".data
        (some (Tree.cons "my-project.md".data (Entry.file "x".data) Tree.nil))).globalRules.map
          Rule.name) = ["my-project.md".data] := by
  refine ⟨by decide, by decide, by decide, by decide, by decide⟩

/-- C7: a config whose repository URL or rules path is empty or
whitespace-only, or whose exclude-pattern list is empty, fails validation
with `isValid = false` and a non-empty error message, and each of
`syncRules`, `pullRules` and `pushRules` throws that validation error in
its prologue — the clone step is never reached. -/
theorem validateConfig_failFast (config : Config)
    (h : trimC config.rulesRepoUrl = [] ∨ trimC config.globalRulesPath = [] ∨
      config.excludePatterns = []) :
    (validateConfig config).isValid = false ∧
    (∃ e, (validateConfig config).error = some e ∧ e ≠ [] ∧
      syncRulesPrologue config
        = PrologueResult.failed ("Ошибка синхронизации: Error: ".data ++ e) ∧
      pullRulesPrologue config
        = PrologueResult.failed ("Ошибка загрузки правил: Error: ".data ++ e) ∧
      pushRulesPrologue config
        = PrologueResult.failed ("Ошибка отправки правил: Error: ".data ++ e)) ∧
    syncRulesPrologue config ≠ PrologueResult.cloneAttempted ∧
    pullRulesPrologue config ≠ PrologueResult.cloneAttempted ∧
    pushRulesPrologue config ≠ PrologueResult.cloneAttempted := by
  have key : ∃ e, validateConfig config = { isValid := false, error := some e } ∧ e ≠ [] := by
    by_cases h1 : config.rulesRepoUrl = [] ∨ trimC config.rulesRepoUrl = []
    · exact ⟨"URL репозитория с правилами не указан. Пожалуйста, укажите Rules Repo Url в настройках расширения и перезапустите IDE.".data,
        by simp [validateConfig, h1], by decide⟩
    · by_cases h2 : config.globalRulesPath = [] ∨ trimC config.globalRulesPath = []
      · exact ⟨"Путь к глобальным правилам не указан.".data,
          by simp [validateConfig, h1, h2], by decide⟩
      · have h3 : config.excludePatterns = [] := by
          rcases h with h | h | h
          · exact absurd (Or.inr h) h1
          · exact absurd (Or.inr h) h2
          · exact h
        exact ⟨"Список исключаемых папок не указан.".data,
          by simp [validateConfig, h1, h2, h3], by decide⟩
  obtain ⟨e, hval, he⟩ := key
  refine ⟨by rw [hval], ⟨e, by rw [hval], he, ?_, ?_, ?_⟩, ?_, ?_, ?_⟩
  · simp [syncRulesPrologue, hval, orElseNonEmpty, he]
  · simp [pullRulesPrologue, hval, orElseNonEmpty, he]
  · simp [pushRulesPrologue, hval, orElseNonEmpty, he]
  · simp [syncRulesPrologue, hval]
  · simp [pullRulesPrologue, hval]
  · simp [pushRulesPrologue, hval]

/-- Witness for C7: a whitespace-only repository URL makes validation
fail and all three operations stop before cloning. -/
theorem validateConfig_failFast_witness :
    trimC badConfig.rulesRepoUrl = [] ∧
      (validateConfig badConfig).isValid = false ∧
      syncRulesPrologue badConfig ≠ PrologueResult.cloneAttempted ∧
      pullRulesPrologue badConfig ≠ PrologueResult.cloneAttempted ∧
      pushRulesPrologue badConfig ≠ PrologueResult.cloneAttempted := by
  have h := validateConfig_failFast badConfig (Or.inl (by decide))
  exact ⟨by decide, h.1, h.2.2.1, h.2.2.2.1, h.2.2.2.2⟩

/-- C8: in `syncRules`' push tail, a pull failure is swallowed — the
outcome does not depend on the pull result and control proceeds to the
push — while a push failure is always fatal and is classified by the
`fetch first`/`rejected` substrings into the diverged-history conflict
message, and otherwise into the distinct generic push-error message. -/
theorem syncRules_pushPhase_classification (pullResult pullResult' : Except Str Unit)
    (msg : Str) :
    syncPushPhase pullResult (Except.error msg)
      = syncPushPhase pullResult' (Except.error msg) ∧
    ((containsSubstr msg "fetch first".data || containsSubstr msg "rejected".data) = true →
      syncPushPhase pullResult (Except.error msg) = Except.error syncConflictMessage) ∧
    ((containsSubstr msg "fetch first".data || containsSubstr msg "rejected".data) = false →
      syncPushPhase pullResult (Except.error msg) = Except.error (syncPushErrorMessage msg)) ∧
    (∀ u, syncPushPhase pullResult (Except.error msg) ≠ Except.ok u) ∧
    syncConflictMessage ≠ syncPushErrorMessage msg := by
  refine ⟨rfl, ?_, ?_, ?_, ?_⟩
  · intro hc
    simp [syncPushPhase, hc]
  · intro hc
    simp [syncPushPhase, hc]
  · intro u
    by_cases hc : (containsSubstr msg "fetch first".data
        || containsSubstr msg "rejected".data) = true
    · simp [syncPushPhase, hc]
    · simp [syncPushPhase, hc]
  · intro hcontra
    have hpre : "Ошибка отправки в GitHub: ".data
        = 'О' :: "шибка отправки в GitHub: ".data := by decide
    have hK : syncConflictMessage.head? = some 'К' := by decide
    have hO : (syncPushErrorMessage msg).head? = some 'О' := by
      rw [syncPushErrorMessage, hpre]
      simp
    rw [hcontra, hO] at hK
    cases hK

/-- Witness for C8: a rejected push raises the conflict message, a
permission failure raises the generic message, and the two messages
differ; the pull outcome does not matter. -/
theorem syncRules_pushPhase_classification_witness :
    syncPushPhase (Except.error "pull failed".data)
        (Except.error "failed to push some refs; rejected".data)
      = Except.error syncConflictMessage ∧
      syncPushPhase (Except.ok ()) (Except.error "Permission denied (403)".data)
        = Except.error (syncPushErrorMessage "Permission denied (403)".data) ∧
      syncConflictMessage ≠ syncPushErrorMessage "Permission denied (403)".data := by
  refine ⟨?_, ?_, ?_⟩
  · exact (syncRules_pushPhase_classification (Except.error "pull failed".data)
      (Except.ok ()) "failed to push some refs; rejected".data).2.1 (by decide)
  · exact (syncRules_pushPhase_classification (Except.ok ())
      (Except.ok ()) "Permission denied (403)".data).2.2.1 (by decide)
  · exact (syncRules_pushPhase_classification (Except.ok ())
      (Except.ok ()) "Permission denied (403)".data).2.2.2.2

/-- C10: `pullRules` reports `modified = 0` and `deleted = 0`, with
`added` equal to the number of non-excluded top-level entries of the
remote rule directory — an entire directory subtree counts as one — and
`total = added`; a missing remote rule directory yields all-zero stats.
The final conjunct shows a directory of two files counting as one added
entry. -/
theorem pullRules_stats (excludePatterns : List Str) (repoTree localTree : Tree) :
    ((pullRules excludePatterns (some repoTree) localTree).1).modified = 0 ∧
    ((pullRules excludePatterns (some repoTree) localTree).1).deleted = 0 ∧
    ((pullRules excludePatterns (some repoTree) localTree).1).added
      = (repoTree.toList.filter (fun p => !(excludePatterns.contains p.1))).length ∧
    ((pullRules excludePatterns (some repoTree) localTree).1).total
      = ((pullRules excludePatterns (some repoTree) localTree).1).added ∧
    (pullRules excludePatterns none localTree).1
      = { added := 0, modified := 0, deleted := 0, total := 0 } ∧
    ((pullRules [] (some (Tree.cons "core".data
        (Entry.dir (Tree.cons "a.md".data (Entry.file "x".data)
          (Tree.cons "b.md".data (Entry.file "y".data) Tree.nil))) Tree.nil))
        Tree.nil).1).added = 1 := by
  refine ⟨rfl, rfl, rfl, by simp [pullRules], rfl, by decide⟩

end CursorRules
